import Mathlib

/-
Verification of the user-migration scripts (Supabase to Neon) against their
specification.  The five Python scripts are shallowly embedded below:

  * fast-import.py                 : generate_user_import_sql
  * bulk-import-remaining.py       : import_users_to_neon, fetch_remaining_users_from_supabase, main
  * import-via-mcp.py              : extract_json, escape_sql, generate_user_batch_sql, batch loop
  * extract-and-import.py          : extract_json_from_log field derivations of generate_import_sql
  * import-all-users-neon.py       : only writes a constant template, nothing to verify

Machine integers do not occur; all record fields are strings, booleans or
optional strings, exactly the shapes the scripts read out of the JSON
payloads.  Fresh UUID generation (uuid.uuid4) is determinized as an explicit
supply  g : Nat -> String  threaded by call order, the standard shallow
embedding of a fresh-name source.  Python dicts are embedded as ordered
association lists with in-place overwrite on key collision.
-/

set_option autoImplicit false

/-- The single-quote character, written via its code point. -/
def qc : Char := Char.ofNat 39

/-- The single-quote character as a one-character string. -/
def squo : String := String.mk [ qc ]

/-- The double-quote character as a one-character string. -/
def dqs : String := String.mk [ Char.ofNat 34 ]

/-- Python `email.split("@")[0]`: the part of the string before the first
`@`, or the whole string when no `@` occurs. -/
def localPart (s : String) : String := String.mk (s.data.takeWhile (· ≠ '@'))

/-- Charwise expansion of Python `.replace(chr(39), chr(39)+chr(39))`:
every single quote is doubled, all other characters kept. -/
def escQ : List Char → List Char
  | [] => []
  | c :: cs => if c = qc then qc :: qc :: escQ cs else c :: escQ cs

/-- String form of `escQ`: the SQL quote-doubling used by the scripts. -/
def doubleQuotes (s : String) : String := String.mk (escQ s.data)

/-- The `raw_user_meta_data` document as the scripts read it: an optional
`full_name`, an optional `email_verified` flag, and any other
provider-specific string fields in their JSON order. -/
structure RawMeta where
  full_name : Option String
  email_verified : Option Bool
  extra : List (String × String)
  deriving DecidableEq

/-- Python `{}`: the empty metadata document used as the default of
`user.get("raw_user_meta_data", {})`. -/
def emptyMeta : RawMeta := { full_name := none, email_verified := none, extra := [] }

/-- Charwise model of the string escaping done by `json.dumps`: double
quotes and backslashes are escaped, other characters kept.  (The records
migrated here contain no control characters.) -/
def jsonEsc : List Char → List Char
  | [] => []
  | c :: cs =>
    if c = Char.ofNat 34 then '\\' :: Char.ofNat 34 :: jsonEsc cs
    else if c = '\\' then '\\' :: '\\' :: jsonEsc cs
    else c :: jsonEsc cs

/-- A JSON string literal as `json.dumps` renders it. -/
def jsonStrLit (s : String) : String := dqs ++ String.mk (jsonEsc s.data) ++ dqs

/-- Model of `json.dumps(raw_user_meta_data)`: the document rendered with
`", "` and `": "` separators (the `json.dumps` defaults), fields in the
document's order. -/
def dumpsRawMeta (m : RawMeta) : String :=
  let fields :=
    (match m.full_name with
     | some v => [ jsonStrLit "full_name" ++ ": " ++ jsonStrLit v ]
     | none => []) ++
    (match m.email_verified with
     | some b => [ jsonStrLit "email_verified" ++ ": " ++ (if b then "true" else "false") ]
     | none => []) ++
    m.extra.map (fun kv => jsonStrLit kv.1 ++ ": " ++ jsonStrLit kv.2)
  "\x7b" ++ String.intercalate ", " fields ++ "\x7d"

/-- Decidable check that `pat` occurs as a contiguous segment of `s`. -/
def occursIn (pat s : List Char) : Bool :=
  match s with
  | [] => pat.isEmpty
  | _ :: cs => pat.isPrefixOf s || occursIn pat cs

/- ## fast-import.py -/

/-- One element of the `users` list consumed by fast-import.py: exactly the
keys its `generate_user_import_sql` reads. -/
structure FastUser where
  id : String
  email : String
  created_at : String
  updated_at : String
  last_sign_in_at : Option String
  raw_user_meta_data : Option RawMeta
  deriving DecidableEq

/-- fast-import.py line 28:
`user_data.get("raw_user_meta_data", {}).get("full_name", email.split("@")[0])`. -/
def fast_name (u : FastUser) : String :=
  ((u.raw_user_meta_data.getD emptyMeta).full_name).getD (localPart u.email)

/-- fast-import.py line 42:
`user_data.get("raw_user_meta_data", {}).get("email_verified", False)`. -/
def fast_email_verified (u : FastUser) : Bool :=
  ((u.raw_user_meta_data.getD emptyMeta).email_verified).getD false

/-- Python `str(b).lower()` on a boolean. -/
def pyBoolLower (b : Bool) : String := if b then "true" else "false"

/-- fast-import.py line 45: the SQL text for `last_active_at`, a quoted
`last_sign_in_at` when that value is truthy (present and non-empty), the
literal `NULL` otherwise. -/
def fast_last_active_sql (u : FastUser) : String :=
  match u.last_sign_in_at with
  | some t => if t = "" then "NULL" else squo ++ t ++ squo
  | none => "NULL"

/-- The twelve VALUES entries of the fast-import user INSERT, in column
order `id, email, name, image, created_at, updated_at, email_verified,
is_active, activation_status, last_active_at, supabase_user_id,
raw_user_meta_data` (fast-import.py lines 31-49). -/
def fastUserValues (uid : String) (u : FastUser) : List String :=
  [ squo ++ uid ++ squo,
    squo ++ u.email ++ squo,
    squo ++ doubleQuotes (fast_name u) ++ squo,
    "NULL",
    squo ++ u.created_at ++ squo,
    squo ++ u.updated_at ++ squo,
    pyBoolLower (fast_email_verified u),
    "true",
    squo ++ "active" ++ squo,
    fast_last_active_sql u,
    squo ++ u.id ++ squo,
    squo ++ doubleQuotes (dumpsRawMeta (u.raw_user_meta_data.getD emptyMeta)) ++ squo ]

/-- The full user INSERT statement emitted by fast-import.py (the f-string
of lines 31-49 after `.strip()`), assembled from `fastUserValues`. -/
def fastUserStmt (uid : String) (u : FastUser) : String :=
  "INSERT INTO " ++ dqs ++ "user" ++ dqs ++ " (\n    id, email, name, image, created_at, updated_at, email_verified, \n    is_active, activation_status, last_active_at, supabase_user_id, raw_user_meta_data\n) VALUES (\n    " ++
    String.intercalate ",\n    " (fastUserValues uid u) ++ "\n)"

/-- The account INSERT statement emitted by fast-import.py (lines 52-64):
columns `id, user_id, account_id, provider_id, password, created_at,
updated_at`. -/
def fastAccountStmt (aid uid : String) (u : FastUser) : String :=
  "INSERT INTO account (\n    id, user_id, account_id, provider_id, password, created_at, updated_at\n) VALUES (\n    " ++
    String.intercalate ",\n    "
      [ squo ++ aid ++ squo,
        squo ++ uid ++ squo,
        squo ++ u.email ++ squo,
        squo ++ "credential" ++ squo,
        "NULL",
        squo ++ u.created_at ++ squo,
        squo ++ u.updated_at ++ squo ] ++ "\n)"

/-- fast-import.py `generate_user_import_sql(users)`: per user, one user
INSERT then one account INSERT.  The `i`-th user consumes the fresh ids
`g (2*i)` (its new user id) and `g (2*i+1)` (its account row id), in the
order `uuid.uuid4()` is called. -/
def generate_user_import_sql (g : Nat → String) (users : List FastUser) : List String :=
  users.enum.flatMap
    (fun p => [ fastUserStmt (g (2 * p.1)) p.2, fastAccountStmt (g (2 * p.1 + 1)) (g (2 * p.1)) p.2 ])

/- ## bulk-import-remaining.py -/

/-- One source record as bulk-import-remaining.py reads it inside
`import_users_to_neon`: keys `id, email, created_at, updated_at,
raw_user_meta_data`. -/
structure BulkUser where
  id : String
  email : String
  created_at : String
  updated_at : String
  raw_user_meta_data : Option RawMeta
  deriving DecidableEq

/-- bulk-import-remaining.py line 65:
`user.get("raw_user_meta_data", {}).get("full_name", user["email"])` —
note the fallback is the whole email, not its local part. -/
def bulk_name (u : BulkUser) : String :=
  ((u.raw_user_meta_data.getD emptyMeta).full_name).getD u.email

/-- One row of the target `user` table, columns in the order of the INSERT
of bulk-import-remaining.py lines 89-96. -/
structure UserRow where
  id : String
  email : String
  email_verified : Bool
  image : Option String
  name : String
  created_at : String
  updated_at : String
  role : String
  is_active : Bool
  activation_status : String
  last_active_at : String
  supabase_user_id : String
  raw_user_meta_data : String
  deriving DecidableEq

/-- One row of the target `account` table, columns in the order of the
INSERT of bulk-import-remaining.py lines 101-110. -/
structure AccountRow where
  account_id : String
  provider_id : String
  user_id : String
  password : Option String
  created_at : String
  updated_at : String
  deriving DecidableEq

/-- The target store: the two tables the Loader writes. -/
structure NeonDB where
  users : List UserRow
  accounts : List AccountRow
  deriving DecidableEq

/-- The `user_insert` tuple of bulk-import-remaining.py lines 60-74.  The
target `id` is `user["id"]` — the source id itself — and `last_active_at`
is `user["updated_at"]` unconditionally. -/
def bulkUserRow (u : BulkUser) : UserRow :=
  { id := u.id
    email := u.email
    email_verified := true
    image := none
    name := bulk_name u
    created_at := u.created_at
    updated_at := u.updated_at
    role := "user"
    is_active := true
    activation_status := "active"
    last_active_at := u.updated_at
    supabase_user_id := u.id
    raw_user_meta_data := dumpsRawMeta (u.raw_user_meta_data.getD emptyMeta) }

/-- The `account_insert` tuple of bulk-import-remaining.py lines 77-86:
`account_id` and `user_id` are both `user["id"]`, the password is NULL. -/
def bulkAccountRow (u : BulkUser) : AccountRow :=
  { account_id := u.id
    provider_id := "credential"
    user_id := u.id
    password := none
    created_at := u.created_at
    updated_at := u.updated_at }

/-- `INSERT ... ON CONFLICT (id) DO NOTHING` (bulk-import-remaining.py
line 95): the row is appended unless a row with the same `id` exists. -/
def insertUserOnConflict (db : NeonDB) (r : UserRow) : NeonDB :=
  if db.users.any (fun x => x.id == r.id) then db
  else { db with users := db.users ++ [ r ] }

/-- `INSERT ... SELECT ... WHERE NOT EXISTS (SELECT 1 FROM account WHERE
account_id = .. AND provider_id = ..)` (bulk-import-remaining.py lines
101-110): the row is appended unless one with the same
`(account_id, provider_id)` pair exists. -/
def insertAccountIfAbsent (db : NeonDB) (r : AccountRow) : NeonDB :=
  if db.accounts.any (fun a => a.account_id == r.account_id && a.provider_id == r.provider_id) then db
  else { db with accounts := db.accounts ++ [ r ] }

/-- bulk-import-remaining.py `import_users_to_neon(users)` acting on the
target store: all user inserts are executed in order (`execute_batch`
preserves statement order; `page_size` only groups round-trips), then all
account inserts, then commit. -/
def import_users_to_neon (users : List BulkUser) (db : NeonDB) : NeonDB :=
  let db1 := (users.map bulkUserRow).foldl insertUserOnConflict db
  (users.map bulkAccountRow).foldl insertAccountIfAbsent db1

/- ## import-via-mcp.py -/

/-- The Python values that import-via-mcp.py passes to `escape_sql`. -/
inductive PyVal where
  | pynone
  | pybool (b : Bool)
  | pyint (n : Int)
  | pystr (s : String)
  | pydict (m : RawMeta)
  deriving DecidableEq

/-- import-via-mcp.py `escape_sql` (lines 31-42): NULL for None, lowercase
booleans, numbers bare, dicts dumped to JSON and cast, strings quoted with
single quotes doubled.  (The float branch is omitted: no float is ever
passed in this repository.) -/
def escape_sql : PyVal → String
  | .pynone => "NULL"
  | .pybool b => if b then "true" else "false"
  | .pyint n => toString n
  | .pydict m => squo ++ dumpsRawMeta m ++ squo ++ "::json"
  | .pystr s => squo ++ doubleQuotes s ++ squo

/-- Lift of an optional string to the value `escape_sql` receives for it. -/
def optPy : Option String → PyVal
  | some s => .pystr s
  | none => .pynone

/-- One record as import-via-mcp.py reads it in `generate_user_batch_sql`:
the export query already computed `is_active`, `activation_status` and
`last_active_at`. -/
structure McpUser where
  id : String
  email : String
  created_at : String
  updated_at : String
  is_active : Bool
  activation_status : String
  last_active_at : Option String
  raw_user_meta_data : Option RawMeta
  deriving DecidableEq

/-- import-via-mcp.py line 56:
`user.get("raw_user_meta_data", {}).get("full_name") or
user["email"].split("@")[0]` — a truthiness test, so an empty string also
falls back. -/
def mcp_full_name (u : McpUser) : String :=
  match (u.raw_user_meta_data.getD emptyMeta).full_name with
  | some s => if s = "" then localPart u.email else s
  | none => localPart u.email

/-- import-via-mcp.py line 57:
`user.get("raw_user_meta_data", {}).get("email_verified", False)`. -/
def mcp_email_verified (u : McpUser) : Bool :=
  ((u.raw_user_meta_data.getD emptyMeta).email_verified).getD false

/-- The user INSERT statement of import-via-mcp.py lines 60-77. -/
def mcpUserSql (uid : String) (u : McpUser) : String :=
  "INSERT INTO " ++ dqs ++ "user" ++ dqs ++ " (\n  id, name, email, email_verified, image, created_at, updated_at,\n  role, is_active, activation_status, last_active_at, supabase_user_id, raw_user_meta_data\n) VALUES (\n  " ++
    escape_sql (.pystr uid) ++ ",\n  " ++
    escape_sql (.pystr (mcp_full_name u)) ++ ",\n  " ++
    escape_sql (.pystr u.email) ++ ",\n  " ++
    escape_sql (.pybool (mcp_email_verified u)) ++ ",\n  NULL,\n  " ++
    escape_sql (.pystr u.created_at) ++ ",\n  " ++
    escape_sql (.pystr u.updated_at) ++ ",\n  " ++ squo ++ "user" ++ squo ++ ",\n  " ++
    escape_sql (.pybool u.is_active) ++ ",\n  " ++
    escape_sql (.pystr u.activation_status) ++ ",\n  " ++
    escape_sql (optPy u.last_active_at) ++ ",\n  " ++
    escape_sql (.pystr u.id) ++ ",\n  " ++
    escape_sql (.pydict (u.raw_user_meta_data.getD emptyMeta)) ++ "\n);"

/-- The account INSERT statement of import-via-mcp.py lines 81-91. -/
def mcpAccountSql (aid uid : String) (u : McpUser) : String :=
  "INSERT INTO account (\n  id, account_id, provider_id, user_id, password, created_at, updated_at\n) VALUES (\n  " ++
    escape_sql (.pystr aid) ++ ",\n  " ++
    escape_sql (.pystr u.email) ++ ",\n  " ++ squo ++ "credential" ++ squo ++ ",\n  " ++
    escape_sql (.pystr uid) ++ ",\n  NULL,\n  " ++
    escape_sql (.pystr u.created_at) ++ ",\n  " ++
    escape_sql (.pystr u.updated_at) ++ "\n);"

/-- A Python dict of strings as an ordered association list; assignment
overwrites the value in place when the key exists, else appends. -/
def dictInsert (d : List (String × String)) (k v : String) : List (String × String) :=
  if d.any (fun p => p.1 == k) then d.map (fun p => if p.1 == k then (k, v) else p)
  else d ++ [ (k, v) ]

/-- Python `d1.update(d2)`: every entry of `d2` assigned into `d1`. -/
def dictUpdate (d1 d2 : List (String × String)) : List (String × String) :=
  d2.foldl (fun acc p => dictInsert acc p.1 p.2) d1

/-- Lookup in the dict model. -/
def dictLookup (d : List (String × String)) (k : String) : Option String :=
  (d.find? (fun p => p.1 == k)).map (·.2)

/-- import-via-mcp.py `generate_user_batch_sql(users, start_idx,
batch_size)` (lines 44-96): slices the batch, and per user generates the
two INSERT statements and records `user_mapping[supabase_id] =
new_user_id`.  `base` is the index of the next fresh uuid at call time;
the `j`-th user of the batch draws `g (base + 2*j)` and `g (base + 2*j +
1)`. -/
def generate_user_batch_sql (g : Nat → String) (base : Nat) (users : List McpUser)
    (start_idx batch_size : Nat) : List String × List (String × String) :=
  let batch := (users.drop start_idx).take batch_size
  batch.enum.foldl
    (fun acc p =>
      let new_user_id := g (base + 2 * p.1)
      let account_uuid := g (base + 2 * p.1 + 1)
      (acc.1 ++ [ mcpUserSql new_user_id p.2, mcpAccountSql account_uuid new_user_id p.2 ],
       dictInsert acc.2 p.2.id new_user_id))
    ([], [])

/-- Number of batches produced by `range(0, n, k)`. -/
def numBatches (n k : Nat) : Nat := (n + k - 1) / k

/-- The module-level batch loop of import-via-mcp.py (lines 105-118):
`for start_idx in range(0, len(users), 50)` — per batch the SQL file
contents are collected and `total_mapping.update(mapping)` merges the
batch mapping.  Full batches consume exactly 100 fresh uuids, so the call
at `start_idx` begins at uuid index `2 * start_idx`. -/
def mcpRun (g : Nat → String) (users : List McpUser) :
    List (List String) × List (String × String) :=
  (List.range' 0 (numBatches users.length 50) 50).foldl
    (fun acc start_idx =>
      let r := generate_user_batch_sql g (2 * start_idx) users start_idx 50
      (acc.1 ++ [ r.1 ], dictUpdate acc.2 r.2))
    ([], [])

/-- import-via-mcp.py lines 120-122:
`mapping_file.write_text(json.dumps(total_mapping, indent=2))` — the file
is truncated and rewritten with only this run's `total_mapping`; the
previous content is never read. -/
def mappingFileAfterRun (_oldContent : List (String × String)) (g : Nat → String)
    (users : List McpUser) : List (String × String) :=
  (mcpRun g users).2

/- ## extract-and-import.py -/

/-- One record as extract-and-import.py reads it in `generate_import_sql`:
this script reads `full_name` and `last_sign_in_at` from the TOP LEVEL of
the record (its export query returned them as columns), and
`raw_user_meta_data` separately for serialization. -/
structure EaiUser where
  id : String
  email : String
  full_name : Option String
  created_at : String
  updated_at : String
  last_sign_in_at : Option String
  raw_user_meta_data : Option RawMeta
  deriving DecidableEq

/-- extract-and-import.py line 43:
`user_data.get("full_name") or user_data["email"].split("@")[0]` — a
truthiness test on the top-level `full_name`. -/
def eai_full_name (u : EaiUser) : String :=
  match u.full_name with
  | some s => if s = "" then localPart u.email else s
  | none => localPart u.email

/-- extract-and-import.py line 45:
`"active" if last_sign_in else "inactive"`. -/
def eai_activation_status (u : EaiUser) : String :=
  match u.last_sign_in_at with
  | some t => if t = "" then "inactive" else "active"
  | none => "inactive"

/-- extract-and-import.py line 66: the SQL text written for
`last_active_at`, `f"'{last_sign_in}'" if last_sign_in else "NULL"`. -/
def eai_last_active_val (u : EaiUser) : String :=
  match u.last_sign_in_at with
  | some t => if t = "" then "NULL" else squo ++ t ++ squo
  | none => "NULL"

/- ## The Batcher -/

/-- The batch slicing of import-via-mcp.py lines 44-46 and 108:
`for start_idx in range(0, len(users), batch_size)` with
`batch = users[start_idx : start_idx + batch_size]`.  `range(0, n, k)`
has `ceil(n / k) = (n + k - 1) / k` elements, modelled by `List.range'`
with step `k`. -/
def allBatches {α : Type} (k : Nat) (l : List α) : List (List α) :=
  (List.range' 0 (numBatches l.length k) k).map (fun s => (l.drop s).take k)

/-- Recursive form of the batch slicing, used to prove properties of
`allBatches` by induction: first `k` elements, then the batches of the
rest. -/
def chunksRec {α : Type} : Nat → List α → List (List α)
  | _, [] => []
  | 0, _ :: _ => []
  | k + 1, x :: xs => ((x :: xs).take (k + 1)) :: chunksRec (k + 1) ((x :: xs).drop (k + 1))
termination_by _k l => l.length
decreasing_by
  simp only [List.drop_succ_cons, List.length_cons, List.length_drop]
  omega

/- ## bulk-import-remaining.py entry point -/

/-- Observable effects of running a script: console output, reads of the
source store, writes to the target store. -/
inductive Effect where
  | printLine (s : String)
  | dbRead (q : String)
  | dbWrite (q : String)
  deriving DecidableEq

/-- Whether an effect is a plain console print. -/
def isPrintLine : Effect → Bool
  | .printLine _ => true
  | _ => false

/-- bulk-import-remaining.py `main()` (lines 125-136): it only prints four
messages; it calls neither `fetch_remaining_users_from_supabase` nor
`import_users_to_neon`, so no dbRead or dbWrite effect occurs. -/
def bulkMainEffects : List Effect :=
  [ .printLine "🚀 Starting bulk import of remaining 200 users...",
    .printLine (String.mk (List.replicate 60 '=')),
    .printLine "⚠️  This script requires direct database access",
    .printLine "    Using MCP Server for import instead...",
    .printLine "\nPlease continue with MCP-based import via the agent." ]

/-- bulk-import-remaining.py `fetch_remaining_users_from_supabase(offset)`
(lines 20-45): raises ValueError when SUPABASE_KEY is unset; otherwise it
builds the query string, prints a progress line, and — because the
Supabase client cannot run raw SQL — returns the empty list without any
database read. -/
def fetch_remaining_users_from_supabase (supabase_key : Option String) (offset : Nat) :
    List Effect × Except String (List BulkUser) :=
  match supabase_key with
  | none => ([], .error "SUPABASE_KEY environment variable not set")
  | some _ =>
    ([ .printLine ("📥 Fetching users from Supabase (offset " ++ toString offset ++ ")...") ],
     .ok [])

/- ## The Extractor (import-via-mcp.py `extract_json`) -/

/-- Python regex `\s`: the whitespace class. -/
def isWs (c : Char) : Bool :=
  c = ' ' || c = '\t' || c = '\n' || c = '\r' || c = Char.ofNat 11 || c = Char.ofNat 12

/-- The literal head of the opening sentinel in the pattern
`<untrusted-data-[^>]+>`. -/
def openLit : List Char := "<untrusted-data-".data

/-- The literal closing sentinel of the pattern, `</untrusted-data-`. -/
def closeLit : List Char := "</untrusted-data-".data

/-- Match a literal character sequence at the head of the input, returning
the remainder. -/
def matchLit : List Char → List Char → Option (List Char)
  | [], rest => some rest
  | _ :: _, [] => none
  | p :: ps, c :: cs => if c = p then matchLit ps cs else none

/-- After a candidate closing bracket: `\s*` then the closing sentinel
(the ending `</untrusted-data-` of the pattern). -/
def isCloseAt (cs : List Char) : Bool :=
  (matchLit closeLit (cs.dropWhile isWs)).isSome

/-- The lazy `.*?\]` of the pattern under `re.DOTALL`: the shortest body
whose next character is `]` followed by whitespace and the closing
sentinel.  Returns the body and the text after the `]`. -/
def lazyBody : List Char → Option (List Char × List Char)
  | [] => none
  | c :: cs =>
    if c = ']' && isCloseAt cs then some ([], cs)
    else
      match lazyBody cs with
      | some (body, rest) => some (c :: body, rest)
      | none => none

/-- Attempt the whole pattern
`<untrusted-data-[^>]+>\s*(\[.*?\])\s*</untrusted-data-` at the head of
the input, returning group 1 (brackets included).  The greedy pieces
`[^>]+` and `\s*` are deterministic here because their character classes
exclude the character that must follow them. -/
def matchAt (cs : List Char) : Option (List Char) :=
  match matchLit openLit cs with
  | none => none
  | some rest =>
    let tagId := rest.takeWhile (· ≠ '>')
    if tagId.length = 0 then none
    else
      match rest.drop tagId.length with
      | '>' :: rest2 =>
        match rest2.dropWhile isWs with
        | '[' :: rest4 =>
          match lazyBody rest4 with
          | some (body, _) => some ('[' :: (body ++ [ ']' ]))
          | none => none
        | _ => none
      | _ => none

/-- `re.search`: the match at the leftmost position where the pattern
succeeds. -/
def searchFrom : List Char → Option (List Char)
  | [] => none
  | c :: cs =>
    match matchAt (c :: cs) with
    | some g => some g
    | none => searchFrom cs

/-- JSON values as `json.loads` returns them.  A number is kept as its
exact numeral token: Python converts the token to an int or an IEEE
float, whose arithmetic is outside this embedding's scope, but the token
grammar — and therefore what parses and what raises — is modelled
exactly.  The constants `NaN`, `Infinity` and `-Infinity`, which
`json.loads` accepts by default, are numeral tokens here too. -/
inductive Json where
  | null
  | bool (b : Bool)
  | num (lexeme : String)
  | str (s : String)
  | arr (elems : List Json)
  | obj (fields : List (String × Json))

/-- The whitespace stripped by `json.loads` between tokens (its
`WHITESPACE` regex `[ \t\n\r]*`) — narrower than the `\s` class used by
the sentinel search. -/
def isJsonWs (c : Char) : Bool :=
  c = ' ' || c = '\t' || c = '\n' || c = '\r'

/-- Hexadecimal digit test for `\uXXXX` escapes. -/
def isHexCh (c : Char) : Bool :=
  c.isDigit || ('a' ≤ c && c ≤ 'f') || ('A' ≤ c && c ≤ 'F')

/-- Value of a hexadecimal digit. -/
def hexVal (c : Char) : Nat :=
  if c.isDigit then c.toNat - 48
  else if 'a' ≤ c && c ≤ 'f' then c.toNat - 87
  else c.toNat - 55

/-- The one-character JSON string escapes `json.loads` accepts (besides
`\uXXXX`, handled separately). -/
def unescChar (c : Char) : Option Char :=
  if c = Char.ofNat 34 then some (Char.ofNat 34)
  else if c = '\\' then some '\\'
  else if c = '/' then some '/'
  else if c = 'n' then some '\n'
  else if c = 't' then some '\t'
  else if c = 'r' then some '\r'
  else if c = 'b' then some (Char.ofNat 8)
  else if c = 'f' then some (Char.ofNat 12)
  else none

/-- Python dict construction from a pair list: assignment keeps the first
position of a key and overwrites its value, so a duplicate key in a JSON
object keeps the last value. -/
def objInsert (d : List (String × Json)) (k : String) (v : Json) : List (String × Json) :=
  if d.any (fun p => p.1 == k) then d.map (fun p => if p.1 == k then (k, v) else p)
  else d ++ [ (k, v) ]

/-- Content of a JSON string after its opening quote, as the (strict,
default) `json.loads` scanner reads it: the known one-character escapes;
`\uXXXX` escapes of exactly four hex digits, a high surrogate followed
by a `\uXXXX` low surrogate combining into one scalar as in Python's
scanner (a lone surrogate, which Python keeps as an unpaired code unit
and a Lean `Char` cannot represent, degrades to the null character —
what is accepted and rejected is unaffected); raw control characters
below U+0020 rejected.  Fueled by the input length; each step consumes
at least one character, so the fuel `length + 1` never runs out. -/
def parseJsonStrAux : Nat → List Char → Option (List Char × List Char)
  | 0, _ => none
  | _, [] => none
  | fuel + 1, c :: cs =>
    if c = Char.ofNat 34 then some ([], cs)
    else if c = '\\' then
      match cs with
      | [] => none
      | e :: cs2 =>
        if e = 'u' then
          match cs2 with
          | a :: b :: c1 :: d :: cs3 =>
            if isHexCh a && isHexCh b && isHexCh c1 && isHexCh d then
              let code := ((hexVal a * 16 + hexVal b) * 16 + hexVal c1) * 16 + hexVal d
              if 0xD800 ≤ code ∧ code < 0xDC00 then
                match cs3 with
                | '\\' :: 'u' :: a2 :: b2 :: c2 :: d2 :: cs4 =>
                  if isHexCh a2 && isHexCh b2 && isHexCh c2 && isHexCh d2 then
                    let code2 := ((hexVal a2 * 16 + hexVal b2) * 16 + hexVal c2) * 16 + hexVal d2
                    if 0xDC00 ≤ code2 ∧ code2 < 0xE000 then
                      (parseJsonStrAux fuel cs4).map
                        (fun p =>
                          (Char.ofNat (0x10000 + (code - 0xD800) * 0x400 + (code2 - 0xDC00)) ::
                             p.1, p.2))
                    else
                      (parseJsonStrAux fuel cs3).map (fun p => (Char.ofNat code :: p.1, p.2))
                  else
                    (parseJsonStrAux fuel cs3).map (fun p => (Char.ofNat code :: p.1, p.2))
                | _ => (parseJsonStrAux fuel cs3).map (fun p => (Char.ofNat code :: p.1, p.2))
              else (parseJsonStrAux fuel cs3).map (fun p => (Char.ofNat code :: p.1, p.2))
            else none
          | _ => none
        else
          match unescChar e with
          | some ec => (parseJsonStrAux fuel cs2).map (fun p => (ec :: p.1, p.2))
          | none => none
    else if c.toNat < 32 then none
    else (parseJsonStrAux fuel cs).map (fun p => (c :: p.1, p.2))

/-- The optional fraction part `(\.\d+)?` of Python's number regex: a
dot is consumed only together with at least one following digit. -/
def parseFracPart : List Char → List Char × List Char
  | '.' :: rest =>
    if (rest.takeWhile (·.isDigit)).isEmpty then ([], '.' :: rest)
    else ('.' :: rest.takeWhile (·.isDigit), rest.dropWhile (·.isDigit))
  | cs => ([], cs)

/-- The optional exponent part `([eE][-+]?\d+)?` of Python's number
regex: an `e` is consumed only together with at least one digit (after
an optional sign). -/
def parseExpPart : List Char → List Char × List Char
  | c :: rest =>
    if c = 'e' || c = 'E' then
      match rest with
      | s :: rest2 =>
        if s = '+' || s = '-' then
          if (rest2.takeWhile (·.isDigit)).isEmpty then ([], c :: rest)
          else (c :: s :: rest2.takeWhile (·.isDigit), rest2.dropWhile (·.isDigit))
        else
          if (rest.takeWhile (·.isDigit)).isEmpty then ([], c :: rest)
          else (c :: rest.takeWhile (·.isDigit), rest.dropWhile (·.isDigit))
      | [] => ([], [ c ])
    else ([], c :: rest)
  | [] => ([], [])

/-- The JSON number token, exactly Python's scanner regex: an optional
minus sign, an integer part that is a single `0` or a nonzero digit
followed by digits (so `01` scans as `0` and the stray `1` then breaks
the enclosing context, as in Python), then the optional fraction and
exponent parts. -/
def parseNumTok (cs : List Char) : Option (List Char × List Char) :=
  let signAndRest : List Char × List Char :=
    match cs with
    | '-' :: rest => ([ '-' ], rest)
    | _ => ([], cs)
  match signAndRest.2 with
  | '0' :: rest =>
    let fr := parseFracPart rest
    let ex := parseExpPart fr.2
    some (signAndRest.1 ++ '0' :: (fr.1 ++ ex.1), ex.2)
  | c :: rest =>
    if c.isDigit then
      let ds := rest.takeWhile (·.isDigit)
      let rest2 := rest.dropWhile (·.isDigit)
      let fr := parseFracPart rest2
      let ex := parseExpPart fr.2
      some (signAndRest.1 ++ c :: (ds ++ fr.1 ++ ex.1), ex.2)
    else none
  | [] => none

mutual

/-- Parse one JSON value as `json.loads`'s `scan_once` dispatches: a
string on `"`, an array on `[`, an object on `{`, the literals `null`,
`true`, `false`, then a number token, then the constants `NaN`,
`Infinity` and `-Infinity`.  Fuel is spent on nesting, one unit per
level; values nest at most one level per input character, so the fuel
`length + 1` never runs out. -/
def parseJsonVal : Nat → List Char → Option (Json × List Char)
  | 0, _ => none
  | fuel + 1, cs =>
    match cs.dropWhile isJsonWs with
    | [] => none
    | c :: rest =>
      if c = Char.ofNat 34 then
        (parseJsonStrAux (rest.length + 1) rest).map (fun p => (.str (String.mk p.1), p.2))
      else if c = '[' then
        match (rest.dropWhile isJsonWs) with
        | ']' :: rest2 => some (.arr [], rest2)
        | _ => (parseJsonElems fuel rest).map (fun p => (.arr p.1, p.2))
      else if c = '\x7b' then
        match (rest.dropWhile isJsonWs) with
        | '\x7d' :: rest2 => some (.obj [], rest2)
        | _ =>
          (parseJsonMembers fuel rest).map
            (fun p => (.obj (p.1.foldl (fun d kv => objInsert d kv.1 kv.2) []), p.2))
      else if c = 'n' then
        (matchLit "ull".data rest).map (fun r => (.null, r))
      else if c = 't' then
        (matchLit "rue".data rest).map (fun r => (.bool true, r))
      else if c = 'f' then
        (matchLit "alse".data rest).map (fun r => (.bool false, r))
      else if c = 'N' then
        (matchLit "aN".data rest).map (fun r => (.num "NaN", r))
      else if c = 'I' then
        (matchLit "nfinity".data rest).map (fun r => (.num "Infinity", r))
      else
        match parseNumTok (c :: rest) with
        | some p => some (.num (String.mk p.1), p.2)
        | none =>
          if c = '-' then (matchLit "Infinity".data rest).map (fun r => (.num "-Infinity", r))
          else none

/-- Parse the comma-separated elements of a non-empty array, consuming
the closing bracket. -/
def parseJsonElems : Nat → List Char → Option (List Json × List Char)
  | 0, _ => none
  | fuel + 1, cs =>
    match parseJsonVal fuel cs with
    | none => none
    | some (v, rest) =>
      match rest.dropWhile isJsonWs with
      | ',' :: rest2 =>
        (parseJsonElems fuel rest2).map (fun p => (v :: p.1, p.2))
      | ']' :: rest2 => some ([ v ], rest2)
      | _ => none

/-- Parse the comma-separated members of a non-empty object, consuming
the closing brace; each key must be a double-quoted string. -/
def parseJsonMembers : Nat → List Char → Option (List (String × Json) × List Char)
  | 0, _ => none
  | fuel + 1, cs =>
    match cs.dropWhile isJsonWs with
    | c :: rest =>
      if c = Char.ofNat 34 then
        match parseJsonStrAux (rest.length + 1) rest with
        | none => none
        | some (key, rest2) =>
          match rest2.dropWhile isJsonWs with
          | ':' :: rest3 =>
            match parseJsonVal fuel rest3 with
            | none => none
            | some (v, rest4) =>
              match rest4.dropWhile isJsonWs with
              | ',' :: rest5 =>
                (parseJsonMembers fuel rest5).map (fun p => ((String.mk key, v) :: p.1, p.2))
              | '\x7d' :: rest5 => some ([ (String.mk key, v) ], rest5)
              | _ => none
          | _ => none
      else none
    | [] => none

end

/-- `json.loads`: parse one JSON document, requiring the whole input to
be consumed up to trailing JSON whitespace (anything further is Python's
"Extra data" error). -/
def jsonParse (s : String) : Option Json :=
  match parseJsonVal (s.data.length + 1) s.data with
  | some (v, rest) => if rest.dropWhile isJsonWs = [] then some v else none
  | none => none

/-- Failure modes of the Extractor: the spec's ParseError (no sentinel
boundary pair found, `ValueError` in the script) and
MalformedPayloadError (`json.JSONDecodeError` from `json.loads`). -/
inductive ExtractErr where
  | noJson
  | malformed
  deriving DecidableEq

/-- import-via-mcp.py `extract_json` (lines 20-29): search the log for the
sentinel-wrapped bracket segment; no match raises ValueError, a match is
handed to `json.loads`, whose failure propagates as JSONDecodeError. -/
def extract_json (content : String) : Except ExtractErr Json :=
  match searchFrom content.data with
  | none => .error .noJson
  | some g =>
    match jsonParse (String.mk g) with
    | some v => .ok v
    | none => .error .malformed

/- ## SQL string-literal re-parsing (for the escaping claims) -/

/-- Scan the content of a SQL single-quoted string literal after its
opening quote: a doubled quote is one literal quote, a lone quote closes
the literal.  Returns the content and the remainder after the closing
quote. -/
def parseLitEnd : List Char → Option (List Char × List Char)
  | [] => none
  | c :: cs =>
    if c = qc then
      match cs with
      | c2 :: cs2 =>
        if c2 = qc then (parseLitEnd cs2).map (fun p => (qc :: p.1, p.2))
        else some ([], c2 :: cs2)
      | [] => some ([], [])
    else (parseLitEnd cs).map (fun p => (c :: p.1, p.2))

/-- Parse a SQL single-quoted string literal at the head of the input. -/
def parseSqlLit (cs : List Char) : Option (List Char × List Char) :=
  match cs with
  | c :: rest => if c = qc then parseLitEnd rest else none
  | [] => none

/- ## The spec's derivation rules, stated for comparison -/

/-- The name-derivation rule as the spec words it: `full_name` when the
field is present, otherwise the part of the email before the `@`. -/
def specNameRule (full_name : Option String) (email : String) : String :=
  match full_name with
  | some n => n
  | none => localPart email

/- ## Concrete inputs used by the individual claims -/

/-- A deterministic stand-in for the uuid supply in concrete runs. -/
def gDemo : Nat → String := fun i => "uuid-" ++ toString i

/-- C1: a plain record pushed through fast-import. -/
def c1FastUser : FastUser :=
  { id := "src-1", email := "bob@example.com", created_at := "2024-01-01",
    updated_at := "2024-02-02", last_sign_in_at := none, raw_user_meta_data := none }

/-- C1: a plain record pushed through the direct loader. -/
def c1BulkUser : BulkUser :=
  { id := "src-1", email := "bob@example.com", created_at := "2024-01-01",
    updated_at := "2024-02-02", raw_user_meta_data := none }

/-- C1: an initially empty target store. -/
def c1DB : NeonDB := { users := [], accounts := [] }

/-- C2: the spec's example email containing an apostrophe. -/
def oBrienEmail : String := "o" ++ squo ++ "brien@example.com"

/-- C2: a record whose email contains an apostrophe. -/
def c2User : FastUser :=
  { id := "src-2", email := oBrienEmail, created_at := "2024-01-01",
    updated_at := "2024-01-02", last_sign_in_at := none, raw_user_meta_data := none }

/-- C3: a record with no `full_name` in its metadata. -/
def c3BulkUser : BulkUser :=
  { id := "src-3", email := "bob@example.com", created_at := "c", updated_at := "u",
    raw_user_meta_data := none }

/-- C5: two records identical except for their source id. -/
def c5BulkA : BulkUser :=
  { id := "src-a", email := "x@y.z", created_at := "c", updated_at := "u",
    raw_user_meta_data := none }

/-- C5: the twin of `c5BulkA` with a different source id. -/
def c5BulkB : BulkUser :=
  { id := "src-b", email := "x@y.z", created_at := "c", updated_at := "u",
    raw_user_meta_data := none }

/-- C6: a record with no `last_sign_in_at`. -/
def c6FastUser : FastUser :=
  { id := "i6", email := "e@x.com", created_at := "2024-01-01", updated_at := "2024-06-30",
    last_sign_in_at := none, raw_user_meta_data := none }

/-- C6 witness: a record with a (truthy) `last_sign_in_at`. -/
def c6FastSigned : FastUser :=
  { id := "i6b", email := "e@x.com", created_at := "2024-01-01", updated_at := "2024-06-30",
    last_sign_in_at := some "2024-05-05", raw_user_meta_data := none }

/-- C6 witness: an extract-and-import record with no `last_sign_in_at`. -/
def c6Eai : EaiUser :=
  { id := "i6c", email := "e@x.com", full_name := none, created_at := "c", updated_at := "u",
    last_sign_in_at := none, raw_user_meta_data := none }

/-- C6 witness: a fast-import record whose `last_sign_in_at` is present
but empty (falsy in Python). -/
def c6FastEmpty : FastUser :=
  { id := "i6d", email := "e@x.com", created_at := "2024-01-01", updated_at := "2024-06-30",
    last_sign_in_at := some "", raw_user_meta_data := none }

/-- C6 witness: an extract-and-import record with a (truthy)
`last_sign_in_at`. -/
def c6EaiSigned : EaiUser :=
  { id := "i6e", email := "e@x.com", full_name := none, created_at := "c", updated_at := "u",
    last_sign_in_at := some "2024-05-05", raw_user_meta_data := none }

/-- C6 witness: an extract-and-import record whose `last_sign_in_at` is
present but empty (falsy in Python). -/
def c6EaiEmpty : EaiUser :=
  { id := "i6f", email := "e@x.com", full_name := none, created_at := "c", updated_at := "u",
    last_sign_in_at := some "", raw_user_meta_data := none }

/-- C8: one record flowing through the import-via-mcp run. -/
def c8User : McpUser :=
  { id := "s1", email := "a@b.c", created_at := "c", updated_at := "u", is_active := true,
    activation_status := "active", last_active_at := none, raw_user_meta_data := none }

/-- C8: another record, keyed `s0` is never remapped by a run over it. -/
def c8Fresh : Nat → String := fun i => "fresh-" ++ toString i

/-- C9: an extract-and-import record whose metadata `full_name` is the
empty string while the top-level `full_name` is set. -/
def c9Eai : EaiUser :=
  { id := "i9", email := "bob@example.com", full_name := some "Jane Doe", created_at := "c",
    updated_at := "u", last_sign_in_at := none,
    raw_user_meta_data := some { full_name := some "", email_verified := none, extra := [] } }

/-- C9 witness: an import-via-mcp record whose metadata `full_name` is the
empty string. -/
def c9Mcp : McpUser :=
  { id := "s9", email := "carol@x.io", created_at := "c", updated_at := "u", is_active := true,
    activation_status := "active", last_active_at := none,
    raw_user_meta_data := some { full_name := some "", email_verified := none, extra := [] } }

/-- C7: the JSON object payload of the spec's artifact-extraction example. -/
def c7Body : String :=
  "\x7b" ++ dqs ++ "id" ++ dqs ++ ":" ++ dqs ++ "1" ++ dqs ++ "," ++ dqs ++ "email" ++ dqs ++
    ":" ++ dqs ++ "a@b.com" ++ dqs ++ "\x7d"

/-- C7: the parsed value of the example payload. -/
def c7Json : Json :=
  .arr [ .obj [ ("id", .str "1"), ("email", .str "a@b.com") ] ]

/- ## Theorems -/

/-- C10: invoking bulk-import-remaining.py as a script performs no
database read or write — `main` (lines 125-136) only prints messages and
calls neither `fetch_remaining_users_from_supabase` nor
`import_users_to_neon`; and `fetch_remaining_users_from_supabase` returns
the empty list for every offset whenever the API key is set, itself
producing only a console print (and an error when the key is absent). -/
theorem bulk_main_is_noop :
    (bulkMainEffects.all isPrintLine = true) ∧
    (∀ (key : String) (offset : Nat),
       (fetch_remaining_users_from_supabase (some key) offset).2 = .ok [] ∧
       ((fetch_remaining_users_from_supabase (some key) offset).1.all isPrintLine = true)) ∧
    (fetch_remaining_users_from_supabase none 0).2 =
      .error "SUPABASE_KEY environment variable not set" := by
  refine ⟨by decide, fun key offset => ⟨rfl, rfl⟩, rfl⟩

/-- C3 counterexample: for a record with no `full_name` and email
`bob@example.com` the claim demands the derived name `bob`, but
bulk-import-remaining.py line 65 falls back to the whole email, so the
inserted name is `bob@example.com`. -/
theorem bulk_name_full_email_cx :
    (bulkUserRow c3BulkUser).name = "bob@example.com" ∧
    localPart c3BulkUser.email = "bob" ∧
    (bulkUserRow c3BulkUser).name ≠ localPart c3BulkUser.email := by
  refine ⟨rfl, rfl, by decide⟩

/-- C3 amended: fast-import derives the name exactly by the spec's rule —
`raw_metadata.full_name` when present, else the part of the email before
the `@` — and the derivation is total when `raw_metadata` is absent
(absence is the empty document); but in bulk-import-remaining.py the
fallback is the whole email rather than its local part. -/
theorem name_derivation_amended :
    (∀ u : FastUser,
       fast_name u = specNameRule (u.raw_user_meta_data.getD emptyMeta).full_name u.email) ∧
    (∀ u : FastUser, u.raw_user_meta_data = none → fast_name u = localPart u.email) ∧
    (∀ u : BulkUser,
       bulk_name u =
         match (u.raw_user_meta_data.getD emptyMeta).full_name with
         | some n => n
         | none => u.email) := by
  refine ⟨fun u => ?_, fun u h => ?_, fun u => ?_⟩
  · cases h : (u.raw_user_meta_data.getD emptyMeta).full_name <;>
      simp [fast_name, specNameRule, h]
  · simp [fast_name, h, emptyMeta]
  · cases h : (u.raw_user_meta_data.getD emptyMeta).full_name <;>
      simp [bulk_name, h]

/-- C3 witness: the amended name derivation evaluated on a concrete
record lacking metadata. -/
theorem name_derivation_amended_witness :
    fast_name c1FastUser = localPart c1FastUser.email ∧ localPart c1FastUser.email = "bob" :=
  ⟨name_derivation_amended.2.1 c1FastUser rfl, by decide⟩

/-- C5 counterexample: two records of bulk-import-remaining.py identical
except for their source id produce target user rows whose `id` column
equals the source id, so the target id is not independent of the source
id and the source id is not carried only in `supabase_user_id`. -/
theorem bulk_target_id_reuse_cx :
    c5BulkA.email = c5BulkB.email ∧
    c5BulkA.created_at = c5BulkB.created_at ∧
    c5BulkA.updated_at = c5BulkB.updated_at ∧
    c5BulkA.raw_user_meta_data = c5BulkB.raw_user_meta_data ∧
    (bulkUserRow c5BulkA).id = c5BulkA.id ∧
    (bulkUserRow c5BulkA).id ≠ (bulkUserRow c5BulkB).id ∧
    (bulkAccountRow c5BulkA).user_id = c5BulkA.id := by
  refine ⟨rfl, rfl, rfl, rfl, rfl, by decide, rfl⟩

/-- C5 amended: in fast-import the inserted user row's id slot is exactly
the freshly drawn uuid, the source id appears only in the
`supabase_user_id` slot (changing the source id changes no other VALUES
entry), and the account row references the fresh id; in
bulk-import-remaining.py, by contrast, the target `id` (and the account's
`user_id`) is the source id itself. -/
theorem target_id_independence_amended :
    (∀ (uid i2 : String) (u : FastUser),
       fastUserValues uid { u with id := i2 } =
         (fastUserValues uid u).set 10 (squo ++ i2 ++ squo)) ∧
    (∀ (uid : String) (u : FastUser),
       (fastUserValues uid u).get? 0 = some (squo ++ uid ++ squo) ∧
       (fastUserValues uid u).get? 10 = some (squo ++ u.id ++ squo)) ∧
    (∀ u : BulkUser,
       (bulkUserRow u).id = u.id ∧ (bulkUserRow u).supabase_user_id = u.id ∧
       (bulkAccountRow u).user_id = u.id) := by
  exact ⟨fun uid i2 u => rfl, fun uid u => ⟨rfl, rfl⟩, fun u => ⟨rfl, rfl, rfl⟩⟩

/-- C6 counterexample: for a record with no `last_sign_in_at`, the claim
(and spec) demand `last_active_at = updated_at`, but fast-import.py line
45 emits the SQL literal `NULL` (VALUES entry 9 of the insert). -/
theorem last_active_null_cx :
    fast_last_active_sql c6FastUser = "NULL" ∧
    (fastUserValues "U0" c6FastUser).get? 9 = some "NULL" ∧
    squo ++ c6FastUser.updated_at ++ squo ≠ "NULL" := by
  refine ⟨rfl, rfl, by decide⟩

/-- C6 amended: `last_active_at` is the quoted `last_sign_in_at` when
that field is present and non-empty, and otherwise — absent or present
but empty — the SQL `NULL`, not `updated_at`, in both fast-import.py and
extract-and-import.py; while bulk-import-remaining.py uses `updated_at`
unconditionally, never `last_sign_in_at`. -/
theorem last_active_amended :
    (∀ (u : FastUser) (t : String),
       u.last_sign_in_at = some t → t ≠ "" →
       fast_last_active_sql u = squo ++ t ++ squo) ∧
    (∀ u : FastUser, u.last_sign_in_at = none → fast_last_active_sql u = "NULL") ∧
    (∀ u : FastUser, u.last_sign_in_at = some "" → fast_last_active_sql u = "NULL") ∧
    (∀ (u : EaiUser) (t : String),
       u.last_sign_in_at = some t → t ≠ "" →
       eai_last_active_val u = squo ++ t ++ squo) ∧
    (∀ u : EaiUser, u.last_sign_in_at = none → eai_last_active_val u = "NULL") ∧
    (∀ u : EaiUser, u.last_sign_in_at = some "" → eai_last_active_val u = "NULL") ∧
    (∀ u : BulkUser, (bulkUserRow u).last_active_at = u.updated_at) := by
  refine ⟨fun u t h ht => ?_, fun u h => ?_, fun u h => ?_,
          fun u t h ht => ?_, fun u h => ?_, fun u h => ?_, fun u => rfl⟩
  · simp [fast_last_active_sql, h, ht]
  · simp [fast_last_active_sql, h]
  · simp [fast_last_active_sql, h]
  · simp [eai_last_active_val, h, ht]
  · simp [eai_last_active_val, h]
  · simp [eai_last_active_val, h]

/-- C6 witness: the amended rule evaluated on concrete fast-import and
extract-and-import records with a non-empty, an absent, and a
present-but-empty sign-in timestamp, and on a concrete bulk record. -/
theorem last_active_amended_witness :
    fast_last_active_sql c6FastSigned = squo ++ "2024-05-05" ++ squo ∧
    fast_last_active_sql c6FastUser = "NULL" ∧
    fast_last_active_sql c6FastEmpty = "NULL" ∧
    eai_last_active_val c6EaiSigned = squo ++ "2024-05-05" ++ squo ∧
    eai_last_active_val c6Eai = "NULL" ∧
    eai_last_active_val c6EaiEmpty = "NULL" ∧
    (bulkUserRow c1BulkUser).last_active_at = c1BulkUser.updated_at :=
  ⟨last_active_amended.1 c6FastSigned "2024-05-05" rfl (by decide),
   last_active_amended.2.1 c6FastUser rfl,
   last_active_amended.2.2.1 c6FastEmpty rfl,
   last_active_amended.2.2.2.1 c6EaiSigned "2024-05-05" rfl (by decide),
   last_active_amended.2.2.2.2.1 c6Eai rfl,
   last_active_amended.2.2.2.2.2.1 c6EaiEmpty rfl,
   last_active_amended.2.2.2.2.2.2 c1BulkUser⟩

/-- C9 counterexample: extract-and-import.py reads `full_name` from the
record's top level, not from `raw_user_meta_data`; for a record whose
metadata `full_name` is the empty string but whose top-level `full_name`
is `Jane Doe`, the derived name is `Jane Doe`, not the email local part
the claim demands. -/
theorem eai_top_level_name_cx :
    (c9Eai.raw_user_meta_data.getD emptyMeta).full_name = some "" ∧
    eai_full_name c9Eai = "Jane Doe" ∧
    eai_full_name c9Eai ≠ localPart c9Eai.email := by
  refine ⟨rfl, rfl, by decide⟩

/-- C9 amended: the falsy-name fallback holds of the truthiness test each
script actually performs — in import-via-mcp.py on
`raw_user_meta_data.full_name`, and in extract-and-import.py on the
record's top-level `full_name` — an empty-string (or absent) value falls
back to the email's local part. -/
theorem falsy_name_fallback_amended :
    (∀ u : McpUser,
       ((u.raw_user_meta_data.getD emptyMeta).full_name = some "" ∨
        (u.raw_user_meta_data.getD emptyMeta).full_name = none) →
       mcp_full_name u = localPart u.email) ∧
    (∀ u : EaiUser,
       (u.full_name = some "" ∨ u.full_name = none) →
       eai_full_name u = localPart u.email) := by
  constructor
  · intro u h
    rcases h with h | h <;> simp [mcp_full_name, h]
  · intro u h
    rcases h with h | h <;> simp [eai_full_name, h]

/-- C9 witness: an empty-string metadata `full_name` in import-via-mcp
and an absent top-level `full_name` in extract-and-import both yield the
email's local part. -/
theorem falsy_name_fallback_amended_witness :
    mcp_full_name c9Mcp = localPart c9Mcp.email ∧
    eai_full_name c6Eai = localPart c6Eai.email :=
  ⟨falsy_name_fallback_amended.1 c9Mcp (Or.inl rfl),
   falsy_name_fallback_amended.2 c6Eai (Or.inr rfl)⟩

/-- Re-parsing a correctly quote-doubled literal recovers the original
content: `parseLitEnd` inverts `escQ` up to the closing quote, provided
the following text does not begin with a quote. -/
theorem parseLitEnd_escQ (s : List Char) :
    ∀ rest : List Char, rest.head? ≠ some qc →
      parseLitEnd (escQ s ++ qc :: rest) = some (s, rest) := by
  induction s with
  | nil =>
    intro rest h
    cases rest with
    | nil => simp [escQ, parseLitEnd]
    | cons c2 cs2 =>
      have hc2 : ¬(c2 = qc) := by
        intro hq; exact h (by simp [hq])
      simp [escQ, parseLitEnd, hc2]
  | cons c cs ih =>
    intro rest h
    by_cases hc : c = qc
    · subst hc
      simp [escQ, parseLitEnd, ih rest h]
    · have he : escQ (c :: cs) = c :: escQ cs := by simp [escQ, hc]
      rw [he, List.cons_append, parseLitEnd.eq_def]
      simp only []
      rw [if_neg hc, ih rest h]
      rfl

/-- The quote-doubling escape of import-via-mcp.py's `escape_sql` (and
the `.replace` calls of the other scripts) round-trips: the emitted SQL
literal re-parses to exactly the original string. -/
theorem escape_sql_roundtrip (s : String) (rest : List Char) (h : rest.head? ≠ some qc) :
    parseSqlLit ((escape_sql (.pystr s)).data ++ rest) = some (s.data, rest) := by
  have hdata : (escape_sql (.pystr s)).data = qc :: (escQ s.data ++ [ qc ]) := by
    simp [escape_sql, squo, doubleQuotes, String.data_append]
  rw [hdata]
  simp only [List.cons_append, List.append_assoc, List.singleton_append]
  simp [parseSqlLit, parseLitEnd_escQ s.data rest h]

/-- C2: SQL-escaping code bug in fast-import.py.  The script doubles the
quotes of the name and metadata but embeds the email unescaped (line 37),
so for the spec's example `o'brien@example.com` the emitted statement
contains the broken fragment `'o'brien@example.com'`: re-parsing the
literal yields `o`, not the email, while the `escape_sql` path of
import-via-mcp.py round-trips the same email correctly. -/
theorem fast_import_email_unescaped :
    occursIn (squo ++ oBrienEmail ++ squo).data (fastUserStmt "U0" c2User).data = true ∧
    parseSqlLit ((squo ++ oBrienEmail ++ squo).data ++ ",".data) =
      some ("o".data, ("brien@example.com" ++ squo ++ ",").data) ∧
    "o".data ≠ oBrienEmail.data ∧
    parseSqlLit ((escape_sql (.pystr oBrienEmail)).data ++ ",".data) =
      some (oBrienEmail.data, ",".data) := by
  refine ⟨by decide, by decide, by decide, by decide⟩

set_option maxRecDepth 40000

/-- C1 counterexample: the SQL emitted by fast-import.py's
`generate_user_import_sql` carries no conflict-skip clause — neither the
user insert nor the account insert contains `ON CONFLICT` or
`WHERE NOT EXISTS` — so the emitted files are not idempotent under
re-application. -/
theorem fast_import_no_conflict_skip_cx :
    (generate_user_import_sql gDemo [ c1FastUser ]).length = 2 ∧
    occursIn "INSERT INTO".data ((generate_user_import_sql gDemo [ c1FastUser ]).headD "").data
      = true ∧
    occursIn "ON CONFLICT".data ((generate_user_import_sql gDemo [ c1FastUser ]).headD "").data
      = false ∧
    occursIn "WHERE NOT EXISTS".data
      ((generate_user_import_sql gDemo [ c1FastUser ]).headD "").data = false ∧
    occursIn "ON CONFLICT".data
      (((generate_user_import_sql gDemo [ c1FastUser ]).getD 1 "").data) = false ∧
    occursIn "WHERE NOT EXISTS".data
      (((generate_user_import_sql gDemo [ c1FastUser ]).getD 1 "").data) = false := by
  refine ⟨rfl, by decide, by decide, by decide, by decide, by decide⟩

/-- Whether the target store already holds a user row with the given id
(the key of the `ON CONFLICT (id) DO NOTHING` clause). -/
def hasUserId (db : NeonDB) (i : String) : Bool :=
  db.users.any (fun x => x.id == i)

/-- Whether the target store already holds an account row with the given
`(account_id, provider_id)` pair (the key of the `WHERE NOT EXISTS`
guard). -/
def hasAcctKey (db : NeonDB) (a p : String) : Bool :=
  db.accounts.any (fun x => x.account_id == a && x.provider_id == p)

theorem insertUser_accounts (db : NeonDB) (r : UserRow) :
    (insertUserOnConflict db r).accounts = db.accounts := by
  unfold insertUserOnConflict
  split <;> rfl

theorem insertAcct_users (db : NeonDB) (r : AccountRow) :
    (insertAccountIfAbsent db r).users = db.users := by
  unfold insertAccountIfAbsent
  split <;> rfl

theorem foldU_accounts (rows : List UserRow) (db : NeonDB) :
    ((rows.foldl insertUserOnConflict db).accounts) = db.accounts := by
  induction rows generalizing db with
  | nil => rfl
  | cons r rows ih => simp [List.foldl_cons, ih, insertUser_accounts]

theorem foldA_users (rows : List AccountRow) (db : NeonDB) :
    ((rows.foldl insertAccountIfAbsent db).users) = db.users := by
  induction rows generalizing db with
  | nil => rfl
  | cons r rows ih => simp [List.foldl_cons, ih, insertAcct_users]

theorem hasUserId_insertUser_mono (db : NeonDB) (r : UserRow) (i : String)
    (h : hasUserId db i = true) : hasUserId (insertUserOnConflict db r) i = true := by
  unfold insertUserOnConflict
  split
  · exact h
  · unfold hasUserId at h ⊢
    simp only [List.any_append, h, Bool.true_or]

theorem hasUserId_insertUser_self (db : NeonDB) (r : UserRow) :
    hasUserId (insertUserOnConflict db r) r.id = true := by
  unfold insertUserOnConflict
  split
  · next h => exact h
  · unfold hasUserId
    simp [List.any_append]

theorem hasUserId_foldU_mono (rows : List UserRow) (db : NeonDB) (i : String)
    (h : hasUserId db i = true) :
    hasUserId (rows.foldl insertUserOnConflict db) i = true := by
  induction rows generalizing db with
  | nil => exact h
  | cons r rows ih => exact ih _ (hasUserId_insertUser_mono db r i h)

theorem hasUserId_foldU_self (rows : List UserRow) (db : NeonDB) (r : UserRow)
    (hr : r ∈ rows) : hasUserId (rows.foldl insertUserOnConflict db) r.id = true := by
  induction rows generalizing db with
  | nil => cases hr
  | cons a rows ih =>
    rcases List.mem_cons.mp hr with h | h
    · subst h
      exact hasUserId_foldU_mono rows _ r.id (hasUserId_insertUser_self db r)
    · exact ih _ h

theorem insertUser_of_has (db : NeonDB) (r : UserRow) (h : hasUserId db r.id = true) :
    insertUserOnConflict db r = db := by
  unfold insertUserOnConflict
  rw [if_pos]
  exact h

theorem foldU_of_has (rows : List UserRow) (db : NeonDB)
    (h : ∀ r ∈ rows, hasUserId db r.id = true) :
    rows.foldl insertUserOnConflict db = db := by
  induction rows with
  | nil => rfl
  | cons r rows ih =>
    rw [List.foldl_cons, insertUser_of_has db r (h r (by simp))]
    exact ih (fun x hx => h x (by simp [hx]))

theorem hasAcctKey_insertAcct_mono (db : NeonDB) (r : AccountRow) (a p : String)
    (h : hasAcctKey db a p = true) : hasAcctKey (insertAccountIfAbsent db r) a p = true := by
  unfold insertAccountIfAbsent
  split
  · exact h
  · unfold hasAcctKey at h ⊢
    simp only [List.any_append, h, Bool.true_or]

theorem hasAcctKey_insertAcct_self (db : NeonDB) (r : AccountRow) :
    hasAcctKey (insertAccountIfAbsent db r) r.account_id r.provider_id = true := by
  unfold insertAccountIfAbsent
  split
  · next h => exact h
  · unfold hasAcctKey
    simp [List.any_append]

theorem hasAcctKey_foldA_mono (rows : List AccountRow) (db : NeonDB) (a p : String)
    (h : hasAcctKey db a p = true) :
    hasAcctKey (rows.foldl insertAccountIfAbsent db) a p = true := by
  induction rows generalizing db with
  | nil => exact h
  | cons r rows ih => exact ih _ (hasAcctKey_insertAcct_mono db r a p h)

theorem hasAcctKey_foldA_self (rows : List AccountRow) (db : NeonDB) (r : AccountRow)
    (hr : r ∈ rows) :
    hasAcctKey (rows.foldl insertAccountIfAbsent db) r.account_id r.provider_id = true := by
  induction rows generalizing db with
  | nil => cases hr
  | cons a rows ih =>
    rcases List.mem_cons.mp hr with h | h
    · subst h
      exact hasAcctKey_foldA_mono rows _ _ _ (hasAcctKey_insertAcct_self db r)
    · exact ih _ h

theorem insertAcct_of_has (db : NeonDB) (r : AccountRow)
    (h : hasAcctKey db r.account_id r.provider_id = true) :
    insertAccountIfAbsent db r = db := by
  unfold insertAccountIfAbsent
  rw [if_pos]
  exact h

theorem foldA_of_has (rows : List AccountRow) (db : NeonDB)
    (h : ∀ r ∈ rows, hasAcctKey db r.account_id r.provider_id = true) :
    rows.foldl insertAccountIfAbsent db = db := by
  induction rows with
  | nil => rfl
  | cons r rows ih =>
    rw [List.foldl_cons, insertAcct_of_has db r (h r (by simp))]
    exact ih (fun x hx => h x (by simp [hx]))

theorem hasUserId_foldA (rows : List AccountRow) (db : NeonDB) (i : String) :
    hasUserId (rows.foldl insertAccountIfAbsent db) i = hasUserId db i := by
  unfold hasUserId
  rw [foldA_users]

theorem nodup_insertUser (db : NeonDB) (r : UserRow)
    (h : (db.users.map UserRow.id).Nodup) :
    ((insertUserOnConflict db r).users.map UserRow.id).Nodup := by
  unfold insertUserOnConflict
  split
  · exact h
  · next hneg =>
    simp only [List.map_append, List.map_cons, List.map_nil, List.nodup_append]
    refine ⟨h, List.nodup_singleton _, ?_⟩
    intro a ha hb
    simp only [List.mem_singleton] at hb
    subst hb
    rcases List.mem_map.mp ha with ⟨x, hx, hxa⟩
    exact hneg (List.any_eq_true.mpr ⟨x, hx, by simp [hxa]⟩)

theorem nodup_foldU (rows : List UserRow) (db : NeonDB)
    (h : (db.users.map UserRow.id).Nodup) :
    (((rows.foldl insertUserOnConflict db).users.map UserRow.id)).Nodup := by
  induction rows generalizing db with
  | nil => exact h
  | cons r rows ih => exact ih _ (nodup_insertUser db r h)

theorem nodup_insertAcct (db : NeonDB) (r : AccountRow)
    (h : (db.accounts.map (fun a => (a.account_id, a.provider_id))).Nodup) :
    ((insertAccountIfAbsent db r).accounts.map (fun a => (a.account_id, a.provider_id))).Nodup := by
  unfold insertAccountIfAbsent
  split
  · exact h
  · next hneg =>
    simp only [List.map_append, List.map_cons, List.map_nil, List.nodup_append]
    refine ⟨h, List.nodup_singleton _, ?_⟩
    intro a ha hb
    simp only [List.mem_singleton] at hb
    subst hb
    rcases List.mem_map.mp ha with ⟨x, hx, hxa⟩
    refine hneg (List.any_eq_true.mpr ⟨x, hx, ?_⟩)
    have h1 : x.account_id = r.account_id := congrArg Prod.fst hxa
    have h2 : x.provider_id = r.provider_id := congrArg Prod.snd hxa
    simp [h1, h2]

theorem nodup_foldA (rows : List AccountRow) (db : NeonDB)
    (h : (db.accounts.map (fun a => (a.account_id, a.provider_id))).Nodup) :
    (((rows.foldl insertAccountIfAbsent db).accounts.map
        (fun a => (a.account_id, a.provider_id)))).Nodup := by
  induction rows generalizing db with
  | nil => exact h
  | cons r rows ih => exact ih _ (nodup_insertAcct db r h)

/-- C1 amended: the direct Loader `import_users_to_neon` is idempotent —
running it a second time on the same batch leaves the target store
unchanged (hence the same row counts), because every user insert
conflict-skips on `id` (which this script sets to the source id, the same
value as `supabase_user_id`) and every account insert skips on
`(account_id, provider_id)`; and both uniqueness invariants of the target
tables are preserved by a run.  (The SQL emitted by fast-import.py,
however, carries no conflict-skip clause — see the counterexample.) -/
theorem loader_idempotent_amended :
    (∀ (users : List BulkUser) (db : NeonDB),
       import_users_to_neon users (import_users_to_neon users db) =
         import_users_to_neon users db) ∧
    (∀ (users : List BulkUser) (db : NeonDB),
       ((db.users.map UserRow.id).Nodup →
          ((import_users_to_neon users db).users.map UserRow.id).Nodup) ∧
       ((db.accounts.map (fun a => (a.account_id, a.provider_id))).Nodup →
          ((import_users_to_neon users db).accounts.map
             (fun a => (a.account_id, a.provider_id))).Nodup)) := by
  constructor
  · intro users db
    unfold import_users_to_neon
    set rowsU := users.map bulkUserRow with hU
    set rowsA := users.map bulkAccountRow with hA
    set db' := rowsA.foldl insertAccountIfAbsent (rowsU.foldl insertUserOnConflict db) with hdb
    have husers : ∀ r ∈ rowsU, hasUserId db' r.id = true := by
      intro r hr
      rw [hdb, hasUserId_foldA]
      exact hasUserId_foldU_self rowsU db r hr
    have haccts : ∀ r ∈ rowsA, hasAcctKey db' r.account_id r.provider_id = true := by
      intro r hr
      rw [hdb]
      exact hasAcctKey_foldA_self rowsA _ r hr
    rw [foldU_of_has rowsU db' husers, foldA_of_has rowsA db' haccts]
  · intro users db
    constructor
    · intro h
      unfold import_users_to_neon
      have h1 := nodup_foldU (users.map bulkUserRow) db h
      have : ((((users.map bulkAccountRow).foldl insertAccountIfAbsent
          ((users.map bulkUserRow).foldl insertUserOnConflict db)).users.map UserRow.id)).Nodup := by
        rw [foldA_users]
        exact h1
      exact this
    · intro h
      unfold import_users_to_neon
      refine nodup_foldA _ _ ?_
      rw [foldU_accounts]
      exact h

/-- C1 witness: idempotence and key uniqueness of the direct loader on a
concrete one-record batch over an empty store. -/
theorem loader_idempotent_amended_witness :
    import_users_to_neon [ c1BulkUser ] (import_users_to_neon [ c1BulkUser ] c1DB) =
      import_users_to_neon [ c1BulkUser ] c1DB ∧
    ((import_users_to_neon [ c1BulkUser ] c1DB).users.map UserRow.id).Nodup ∧
    ((import_users_to_neon [ c1BulkUser ] c1DB).accounts.map
       (fun a => (a.account_id, a.provider_id))).Nodup :=
  ⟨loader_idempotent_amended.1 [ c1BulkUser ] c1DB,
   (loader_idempotent_amended.2 [ c1BulkUser ] c1DB).1 (by decide),
   (loader_idempotent_amended.2 [ c1BulkUser ] c1DB).2 (by decide)⟩

theorem map_range'_add {β : Type} (f : Nat → β) (a : Nat) :
    ∀ (m b st : Nat),
      (List.range' (a + b) m st).map f = (List.range' b m st).map (fun i => f (a + i)) := by
  intro m
  induction m with
  | zero => intro b st; rfl
  | succ m ih =>
    intro b st
    rw [List.range'_succ, List.range'_succ, List.map_cons, List.map_cons]
    rw [show a + b + st = a + (b + st) from by omega]
    rw [ih (b + st) st]

theorem chunksRec_nil {α : Type} (k : Nat) : chunksRec k ([] : List α) = [] := by
  cases k <;> simp [chunksRec]

theorem chunksRec_cons {α : Type} (k : Nat) (x : α) (xs : List α) :
    chunksRec (k + 1) (x :: xs) =
      ((x :: xs).take (k + 1)) :: chunksRec (k + 1) ((x :: xs).drop (k + 1)) := by
  rw [chunksRec]

theorem allBatches_nil_pos {α : Type} (k : Nat) : allBatches (k + 1) ([] : List α) = [] := by
  have h0 : numBatches 0 (k + 1) = 0 := by
    unfold numBatches
    exact Nat.div_eq_of_lt (by omega)
  simp [allBatches, h0]

theorem allBatches_eq_aux {α : Type} :
    ∀ (n k : Nat) (l : List α), l.length ≤ n → allBatches (k + 1) l = chunksRec (k + 1) l := by
  intro n
  induction n with
  | zero =>
    intro k l h
    have hl : l = [] := by
      cases l with
      | nil => rfl
      | cons a as => simp at h
    subst hl
    rw [allBatches_nil_pos, chunksRec_nil]
  | succ n ih =>
    intro k l h
    cases l with
    | nil => rw [allBatches_nil_pos, chunksRec_nil]
    | cons x xs =>
      have hnb : numBatches (xs.length + 1) (k + 1) = xs.length / (k + 1) + 1 := by
        unfold numBatches
        rw [show xs.length + 1 + (k + 1) - 1 = xs.length + (k + 1) from by omega]
        rw [Nat.add_div_right _ (Nat.succ_pos k)]
      have hq : numBatches ((x :: xs).drop (k + 1)).length (k + 1) = xs.length / (k + 1) := by
        rw [List.length_drop]
        unfold numBatches
        rcases Nat.lt_or_ge xs.length (k + 1) with hlt | hge
        · rw [show (x :: xs).length - (k + 1) = 0 from by simp; omega]
          rw [Nat.div_eq_of_lt hlt]
          exact Nat.div_eq_of_lt (by omega)
        · rw [show (x :: xs).length - (k + 1) + (k + 1) - 1 = xs.length from by simp; omega]
      have hstep : allBatches (k + 1) (x :: xs) =
          ((x :: xs).take (k + 1)) ::
            (List.range' (0 + (k + 1)) (xs.length / (k + 1)) (k + 1)).map
              (fun s => ((x :: xs).drop s).take (k + 1)) := by
        unfold allBatches
        rw [show (x :: xs).length = xs.length + 1 from rfl, hnb, List.range'_succ]
        simp [List.map_cons]
      rw [hstep, chunksRec_cons]
      congr 1
      rw [show (0 : Nat) + (k + 1) = (k + 1) + 0 from by omega]
      rw [map_range'_add (fun s => ((x :: xs).drop s).take (k + 1)) (k + 1) (xs.length / (k + 1)) 0 (k + 1)]
      have hdd : ∀ i : Nat, ((x :: xs).drop ((k + 1) + i)).take (k + 1) =
          (((x :: xs).drop (k + 1)).drop i).take (k + 1) := by
        intro i
        rw [List.drop_drop]
      have hmap :
          (List.range' 0 (xs.length / (k + 1)) (k + 1)).map
              (fun i => ((x :: xs).drop ((k + 1) + i)).take (k + 1)) =
            (List.range' 0 (xs.length / (k + 1)) (k + 1)).map
              (fun i => (((x :: xs).drop (k + 1)).drop i).take (k + 1)) := by
        apply List.map_congr_left
        intro i _
        exact hdd i
      rw [hmap]
      have hlen : ((x :: xs).drop (k + 1)).length ≤ n := by
        rw [List.length_drop]
        simp only [List.length_cons]
        have : xs.length ≤ n := by
          simpa using Nat.lt_succ_iff.mp (Nat.lt_of_lt_of_le (Nat.lt_succ_self _) h)
        omega
      have := ih k ((x :: xs).drop (k + 1)) hlen
      rw [← this]
      unfold allBatches
      rw [hq]

theorem allBatches_eq_chunksRec {α : Type} (k : Nat) (l : List α) :
    allBatches (k + 1) l = chunksRec (k + 1) l :=
  allBatches_eq_aux l.length k l le_rfl

theorem chunksRec_flatten {α : Type} :
    ∀ (n k : Nat) (l : List α), l.length ≤ n → (chunksRec (k + 1) l).flatten = l := by
  intro n
  induction n with
  | zero =>
    intro k l h
    have hl : l = [] := by
      cases l with
      | nil => rfl
      | cons a as => simp at h
    subst hl
    rw [chunksRec_nil]
    rfl
  | succ n ih =>
    intro k l h
    cases l with
    | nil => rw [chunksRec_nil]; rfl
    | cons x xs =>
      rw [chunksRec_cons, List.flatten_cons]
      have hlen : ((x :: xs).drop (k + 1)).length ≤ n := by
        rw [List.length_drop]
        simp only [List.length_cons] at h ⊢
        omega
      rw [ih k _ hlen, List.take_append_drop]

theorem chunksRec_sizes {α : Type} :
    ∀ (n k : Nat) (l : List α) (b : List α), l.length ≤ n →
      b ∈ chunksRec (k + 1) l → b.length ≤ k + 1 ∧ b ≠ [] := by
  intro n
  induction n with
  | zero =>
    intro k l b h hb
    have hl : l = [] := by
      cases l with
      | nil => rfl
      | cons a as => simp at h
    subst hl
    rw [chunksRec_nil] at hb
    cases hb
  | succ n ih =>
    intro k l b h hb
    cases l with
    | nil => rw [chunksRec_nil] at hb; cases hb
    | cons x xs =>
      rw [chunksRec_cons] at hb
      rcases List.mem_cons.mp hb with hb | hb
      · subst hb
        constructor
        · rw [List.length_take]
          exact min_le_left _ _
        · rw [List.take_succ_cons]
          exact List.cons_ne_nil _ _
      · have hlen : ((x :: xs).drop (k + 1)).length ≤ n := by
          rw [List.length_drop]
          simp only [List.length_cons] at h ⊢
          omega
        exact ih k _ b hlen hb

theorem chunksRec_full {α : Type} :
    ∀ (n k : Nat) (l : List α) (i : Nat) (b : List α), l.length ≤ n →
      i + 1 < (chunksRec (k + 1) l).length →
      (chunksRec (k + 1) l).get? i = some b → b.length = k + 1 := by
  intro n
  induction n with
  | zero =>
    intro k l i b h hi _
    have hl : l = [] := by
      cases l with
      | nil => rfl
      | cons a as => simp at h
    subst hl
    rw [chunksRec_nil] at hi
    simp at hi
  | succ n ih =>
    intro k l i b h hi hget
    cases l with
    | nil => rw [chunksRec_nil] at hi; simp at hi
    | cons x xs =>
      rw [chunksRec_cons] at hi hget
      cases i with
      | zero =>
        rw [List.get?_cons_zero] at hget
        have hb : b = (x :: xs).take (k + 1) := by
          exact (Option.some.injEq _ _).mp hget.symm
        subst hb
        simp only [List.length_cons] at hi
        have hrest : chunksRec (k + 1) ((x :: xs).drop (k + 1)) ≠ [] := by
          intro hcon
          rw [hcon] at hi
          simp at hi
        have hdrop : (x :: xs).drop (k + 1) ≠ [] := by
          intro hcon
          rw [hcon, chunksRec_nil] at hrest
          exact hrest rfl
        have hlong : k + 1 ≤ (x :: xs).length := by
          by_contra hcon
          push_neg at hcon
          exact hdrop (List.drop_eq_nil_of_le (Nat.le_of_lt hcon))
        rw [List.length_take]
        omega
      | succ i =>
        rw [List.get?_cons_succ] at hget
        simp only [List.length_cons] at hi
        have hlen : ((x :: xs).drop (k + 1)).length ≤ n := by
          rw [List.length_drop]
          simp only [List.length_cons] at h ⊢
          omega
        exact ih k _ i b hlen (by omega) hget

/-- C4: Batcher correctness.  For every ordered input and every positive
batch size, the batches of `allBatches` concatenate back to the input (no
record reordered or dropped), each batch is non-empty with at most
`batch_size` elements, only the final batch may be shorter (every batch
with a successor has exactly `batch_size` elements), the empty input
yields no batches, and 125 records at batch size 50 yield exactly the
sizes 50, 50, 25. -/
theorem batcher_correct :
    (∀ (α : Type) (k : Nat) (l : List α), 0 < k →
       ((allBatches k l).flatten = l) ∧
       (∀ b ∈ allBatches k l, b.length ≤ k ∧ b ≠ []) ∧
       (l = [] → allBatches k l = []) ∧
       (∀ (i : Nat) (b : List α),
          i + 1 < (allBatches k l).length → (allBatches k l).get? i = some b →
          b.length = k)) ∧
    ((allBatches 50 (List.range 125)).map List.length = [ 50, 50, 25 ]) := by
  constructor
  · intro α k l hk
    obtain ⟨k', rfl⟩ : ∃ k', k = k' + 1 := ⟨k - 1, by omega⟩
    rw [allBatches_eq_chunksRec]
    refine ⟨chunksRec_flatten l.length k' l le_rfl, ?_, ?_, ?_⟩
    · intro b hb
      exact chunksRec_sizes l.length k' l b le_rfl hb
    · intro hl
      subst hl
      exact chunksRec_nil _
    · intro i b hi hget
      exact chunksRec_full l.length k' l i b le_rfl hi hget
  · decide

/-- C4 witness: the batcher evaluated at the spec's concrete example (125
records, batch size 50) and at the empty input. -/
theorem batcher_correct_witness :
    ((allBatches 50 (List.range 125)).flatten = List.range 125) ∧
    (allBatches 3 ([] : List Nat) = []) :=
  ⟨(batcher_correct.1 Nat 50 (List.range 125) (by decide)).1,
   (batcher_correct.1 Nat 3 ([] : List Nat) (by decide)).2.2.1 rfl⟩

theorem dictLookup_isSome_iff (d : List (String × String)) (k : String) :
    (dictLookup d k).isSome = true ↔ ∃ p ∈ d, p.1 = k := by
  unfold dictLookup
  constructor
  · intro h
    have hf : (List.find? (fun p => p.1 == k) d).isSome = true := by
      cases hf : List.find? (fun p => p.1 == k) d with
      | none => rw [hf] at h; simp at h
      | some p => simp
    rcases List.find?_isSome.mp hf with ⟨p, hp, hk⟩
    exact ⟨p, hp, by simpa using hk⟩
  · rintro ⟨p, hp, hk⟩
    have hf : (List.find? (fun p => p.1 == k) d).isSome = true :=
      List.find?_isSome.mpr ⟨p, hp, by simpa using hk⟩
    cases hfind : List.find? (fun p => p.1 == k) d with
    | none => rw [hfind] at hf; simp at hf
    | some q => simp

theorem dictInsert_keeps_keys (d : List (String × String)) (k v k' : String)
    (h : (dictLookup d k').isSome = true) :
    (dictLookup (dictInsert d k v) k').isSome = true := by
  rcases (dictLookup_isSome_iff d k').mp h with ⟨p, hp, hk⟩
  unfold dictInsert
  split
  · refine (dictLookup_isSome_iff _ k').mpr ?_
    by_cases hpk : p.1 = k
    · exact ⟨(k, v), List.mem_map.mpr ⟨p, hp, by simp [hpk]⟩, hpk.symm.trans hk⟩
    · exact ⟨p, List.mem_map.mpr ⟨p, hp, by simp [hpk]⟩, hk⟩
  · refine (dictLookup_isSome_iff _ k').mpr ⟨p, ?_, hk⟩
    exact List.mem_append.mpr (Or.inl hp)

theorem dictUpdate_keeps_keys (d2 : List (String × String)) :
    ∀ (d : List (String × String)) (k : String),
      (dictLookup d k).isSome = true →
      (dictLookup (dictUpdate d d2) k).isSome = true := by
  induction d2 with
  | nil => intro d k h; exact h
  | cons p d2 ih =>
    intro d k h
    exact ih _ k (dictInsert_keeps_keys d p.1 p.2 k h)

/-- C8 counterexample: the mapping file is not append-only across runs.
Re-running import-via-mcp.py over a source id that an earlier run already
mapped to `t1` rewrites the file with a fresh target id (`fresh-0`), and
an old entry (`s0`) absent from the new run's input is dropped from the
file entirely. -/
theorem mapping_file_overwrite_cx :
    dictLookup [ ("s1", "t1") ] "s1" = some "t1" ∧
    mappingFileAfterRun [ ("s1", "t1") ] c8Fresh [ c8User ] = [ ("s1", "fresh-0") ] ∧
    dictLookup (mappingFileAfterRun [ ("s1", "t1") ] c8Fresh [ c8User ]) "s1" = some "fresh-0" ∧
    (some "fresh-0" : Option String) ≠ some "t1" ∧
    dictLookup (mappingFileAfterRun [ ("s0", "t0") ] c8Fresh [ c8User ]) "s0" = none := by
  refine ⟨rfl, by decide, by decide, by decide, by decide⟩

/-- C8 amended: within a single run the mapping only grows — each batch
merge (`total_mapping.update(mapping)`, a `dictUpdate`) preserves every
key already present — but across runs nothing is preserved: the file
written at the end of a run is a pure function of the current run's input
and fresh ids, identical whatever the previous file content was, so
earlier entries are lost and re-processed source ids are reassigned. -/
theorem mapping_run_amended :
    (∀ (old1 old2 : List (String × String)) (g : Nat → String) (users : List McpUser),
       mappingFileAfterRun old1 g users = mappingFileAfterRun old2 g users) ∧
    (∀ (d d2 : List (String × String)) (k : String),
       (dictLookup d k).isSome = true →
       (dictLookup (dictUpdate d d2) k).isSome = true) := by
  exact ⟨fun old1 old2 g users => rfl, fun d d2 k h => dictUpdate_keeps_keys d2 d k h⟩

/-- C8 witness: the within-run growth and the old-content independence
evaluated at concrete dictionaries and a concrete run. -/
theorem mapping_run_amended_witness :
    mappingFileAfterRun [ ("x", "y") ] c8Fresh [ c8User ] =
      mappingFileAfterRun [] c8Fresh [ c8User ] ∧
    (dictLookup (dictUpdate [ ("a", "1") ] [ ("b", "2") ]) "a").isSome = true :=
  ⟨mapping_run_amended.1 [ ("x", "y") ] [] c8Fresh [ c8User ],
   mapping_run_amended.2 [ ("a", "1") ] [ ("b", "2") ] "a" (by decide)⟩

theorem matchLit_self (lit : List Char) : ∀ rest : List Char, matchLit lit (lit ++ rest) = some rest := by
  induction lit with
  | nil => intro rest; rfl
  | cons c cs ih => intro rest; simp [matchLit, ih]

theorem dropWhile_append_all {p : Char → Bool} (xs ys : List Char)
    (hx : ∀ c ∈ xs, p c = true) : (xs ++ ys).dropWhile p = ys.dropWhile p := by
  induction xs with
  | nil => rfl
  | cons c cs ih =>
    rw [List.cons_append, List.dropWhile_cons, if_pos (hx c (by simp))]
    exact ih (fun c hc => hx c (by simp [hc]))

theorem dropWhile_isWs_closeLit (r : List Char) :
    (closeLit ++ r).dropWhile isWs = closeLit ++ r := rfl

theorem isCloseAt_nl (r : List Char) : isCloseAt ('\n' :: (closeLit ++ r)) = true := by
  unfold isCloseAt
  rw [List.dropWhile_cons, if_pos (by rfl)]
  rw [dropWhile_isWs_closeLit, matchLit_self]
  rfl

theorem lazyBody_exact (body : List Char) :
    ∀ tail : List Char, (∀ c ∈ body, c ≠ ']') → isCloseAt tail = true →
      lazyBody (body ++ ']' :: tail) = some (body, tail) := by
  induction body with
  | nil =>
    intro tail _ hc
    simp [lazyBody, hc]
  | cons c cs ih =>
    intro tail hb hc
    have hcne : c ≠ ']' := hb c (by simp)
    rw [List.cons_append, lazyBody]
    rw [if_neg (by simp [hcne])]
    rw [ih tail (fun x hx => hb x (by simp [hx])) hc]

theorem takeWhile_append_stop {p : Char → Bool} (xs : List Char) (y : Char) (ys : List Char)
    (hx : ∀ c ∈ xs, p c = true) (hy : p y = false) :
    (xs ++ y :: ys).takeWhile p = xs := by
  induction xs with
  | nil => simp [List.takeWhile_cons, hy]
  | cons c cs ih =>
    rw [List.cons_append, List.takeWhile_cons, if_pos (hx c (by simp))]
    rw [ih (fun c hc => hx c (by simp [hc]))]

theorem matchAt_exact (n body tail : List Char)
    (hn : n ≠ []) (hn2 : ∀ c ∈ n, c ≠ '>') (hb : ∀ c ∈ body, c ≠ ']')
    (hc : isCloseAt tail = true) :
    matchAt (openLit ++ (n ++ ('>' :: ('\n' :: ('[' :: (body ++ (']' :: tail))))))) =
      some ('[' :: (body ++ [ ']' ])) := by
  unfold matchAt
  rw [matchLit_self]
  simp only []
  have htake : (n ++ ('>' :: ('\n' :: ('[' :: (body ++ (']' :: tail)))))).takeWhile (· ≠ '>') = n := by
    apply takeWhile_append_stop
    · intro c hcn
      simpa using hn2 c hcn
    · simp
  rw [htake]
  rw [if_neg (by simpa [List.length_eq_zero] using hn)]
  rw [show (n ++ ('>' :: ('\n' :: ('[' :: (body ++ (']' :: tail)))))).drop n.length =
        '>' :: ('\n' :: ('[' :: (body ++ (']' :: tail)))) from List.drop_left n _]
  simp only []
  rw [List.dropWhile_cons, if_pos (by rfl), List.dropWhile_cons, if_neg (by decide)]
  simp only []
  rw [lazyBody_exact body tail hb hc]

theorem matchAt_none_of_ne (c : Char) (cs : List Char) (h : c ≠ '<') :
    matchAt (c :: cs) = none := by
  unfold matchAt
  have : matchLit openLit (c :: cs) = none := by
    rw [show openLit = '<' :: "untrusted-data-".data from rfl]
    simp [matchLit, h]
  rw [this]

theorem searchFrom_skip (pre : List Char) (rest : List Char)
    (hp : ∀ c ∈ pre, c ≠ '<') : searchFrom (pre ++ rest) = searchFrom rest := by
  induction pre with
  | nil => rfl
  | cons c cs ih =>
    rw [List.cons_append, searchFrom]
    rw [matchAt_none_of_ne c _ (hp c (by simp))]
    exact ih (fun x hx => hp x (by simp [hx]))

theorem searchFrom_none (cs : List Char) (h : ∀ c ∈ cs, c ≠ '<') : searchFrom cs = none := by
  induction cs with
  | nil => rfl
  | cons c cs ih =>
    rw [searchFrom, matchAt_none_of_ne c _ (h c (by simp))]
    exact ih (fun x hx => h x (by simp [hx]))

theorem searchFrom_at (rest : List Char) (g : List Char)
    (h : matchAt (openLit ++ rest) = some g) : searchFrom (openLit ++ rest) = some g := by
  rw [show openLit ++ rest = '<' :: ("untrusted-data-".data ++ rest) from rfl] at h ⊢
  rw [searchFrom, h]

theorem searchFrom_log (pre n body post : String)
    (hpre : ∀ c ∈ pre.data, c ≠ '<') (hn : n.data ≠ []) (hn2 : ∀ c ∈ n.data, c ≠ '>')
    (hb : ∀ c ∈ body.data, c ≠ ']') :
    searchFrom (pre ++ "<untrusted-data-" ++ n ++ ">\n[" ++ body ++ "]\n</untrusted-data-" ++
        n ++ ">" ++ post).data =
      some ('[' :: (body.data ++ [ ']' ])) := by
  have h1 : ("<untrusted-data-" : String).data = openLit := rfl
  have h2 : (">\n[" : String).data = '>' :: '\n' :: '[' :: [] := rfl
  have h3 : ("]\n</untrusted-data-" : String).data = ']' :: '\n' :: closeLit := rfl
  have h4 : (">" : String).data = '>' :: [] := rfl
  have hdata : (pre ++ "<untrusted-data-" ++ n ++ ">\n[" ++ body ++ "]\n</untrusted-data-" ++
      n ++ ">" ++ post).data =
      pre.data ++ (openLit ++ (n.data ++ ('>' :: ('\n' :: ('[' :: (body.data ++
        (']' :: ('\n' :: (closeLit ++ (n.data ++ ('>' :: post.data))))))))))) := by
    simp [String.data_append, h1, h2, h3, h4, openLit, closeLit]
  rw [hdata, searchFrom_skip pre.data _ hpre]
  exact searchFrom_at _ _
    (matchAt_exact n.data body.data ('\n' :: (closeLit ++ (n.data ++ ('>' :: post.data))))
      hn hn2 hb (isCloseAt_nl _))

/-- C7: Artifact extraction.  For every log text of the sentinel-wrapped
form (noise before the boundary containing no `<`, a non-empty boundary
id without `>`, a bracket payload without `]`), `extract_json` locates
the first bracket segment enclosed between the sentinel boundary markers
and returns it parsed — in particular a single-object array yields the
one-element sequence of that object — and it fails with the
MalformedPayloadError analogue (`json.JSONDecodeError`) when the
enclosed text is not valid JSON, and with the ParseError analogue
(`ValueError`) when no boundary pair is present. -/
theorem extractor_correct :
    (∀ (pre n body post : String) (v : Json),
       (∀ c ∈ pre.data, c ≠ '<') → n.data ≠ [] → (∀ c ∈ n.data, c ≠ '>') →
       (∀ c ∈ body.data, c ≠ ']') →
       jsonParse ("[" ++ body ++ "]") = some v →
       extract_json (pre ++ "<untrusted-data-" ++ n ++ ">\n[" ++ body ++
           "]\n</untrusted-data-" ++ n ++ ">" ++ post) = .ok v) ∧
    (∀ (pre n body post : String),
       (∀ c ∈ pre.data, c ≠ '<') → n.data ≠ [] → (∀ c ∈ n.data, c ≠ '>') →
       (∀ c ∈ body.data, c ≠ ']') →
       jsonParse ("[" ++ body ++ "]") = none →
       extract_json (pre ++ "<untrusted-data-" ++ n ++ ">\n[" ++ body ++
           "]\n</untrusted-data-" ++ n ++ ">" ++ post) = .error .malformed) ∧
    (∀ content : String, (∀ c ∈ content.data, c ≠ '<') →
       extract_json content = .error .noJson) := by
  have hmk : ∀ body : String, String.mk ('[' :: (body.data ++ [ ']' ])) = "[" ++ body ++ "]" := by
    intro body
    have : ("[" ++ body ++ "]").data = '[' :: (body.data ++ [ ']' ]) := by
      simp [String.data_append]
    rw [← this]
  refine ⟨fun pre n body post v hpre hn hn2 hb hj => ?_,
          fun pre n body post hpre hn hn2 hb hj => ?_,
          fun content h => ?_⟩
  · unfold extract_json
    rw [searchFrom_log pre n body post hpre hn hn2 hb]
    simp only []
    rw [hmk body, hj]
  · unfold extract_json
    rw [searchFrom_log pre n body post hpre hn hn2 hb]
    simp only []
    rw [hmk body, hj]
  · unfold extract_json
    rw [searchFrom_none content.data h]

/-- C7 witness: the extractor evaluated on the spec's example log (one
object between sentinels, with noise around), on a log whose enclosed
text is not valid JSON, and on text with no boundary pair. -/
theorem extractor_correct_witness :
    extract_json ("log output: " ++ "<untrusted-data-" ++ "42" ++ ">\n[" ++ c7Body ++
        "]\n</untrusted-data-" ++ "42" ++ ">" ++ " trailing") = .ok c7Json ∧
    extract_json ("x " ++ "<untrusted-data-" ++ "7" ++ ">\n[" ++ "oops" ++
        "]\n</untrusted-data-" ++ "7" ++ ">" ++ "") = .error .malformed ∧
    extract_json "no sentinels here" = .error .noJson :=
  ⟨extractor_correct.1 "log output: " "42" c7Body " trailing" c7Json
     (by decide) (by decide) (by decide) (by decide) (by rfl),
   extractor_correct.2.1 "x " "7" "oops" ""
     (by decide) (by decide) (by decide) (by decide) (by rfl),
   extractor_correct.2.2 "no sentinels here" (by decide)⟩
